import Mathlib

/-!
Formal model of `BirthdayParadox_v03.py`, a Monte Carlo simulation of the
birthday paradox.

Dates: the source builds `datetime.date(2001, 1, 1) + datetime.timedelta(d)`
with `d = random.randint(0, 364)`; 2001 is not a leap year, so a date is
fully determined by its offset `d` in `0..364` (day-of-year `d + 1` in
`1..365`).  We represent a calendar date by that offset, a `Nat`.

Randomness: a draw `random.randint(0, 364)` is modelled as `g k % 365` for an
arbitrary entropy stream `g : Nat → Nat` — every possible outcome sequence is
realised by some `g`, so universally quantified theorems cover all runs.  In
the simulation driver each trial `i` uses its own stream `G i`.

Python dictionaries (`collections.Counter`, `collections.defaultdict(int)`)
are modelled as association lists `List (Nat × Nat)` built by the same
increment-by-one loop the source performs; printing is dropped since it does
not affect the returned values.  Exact rational arithmetic stands in for
Python float division in the final probability.
-/

namespace BirthdayParadox

/-- Source `get_random_birthdays` (lines 17–31): the list comprehension
`[date(2001,1,1) + timedelta(random.randint(0, 364)) for _ in range(num_birthdays)]`.
Each date is its timedelta offset `g k % 365 ∈ [0, 364]`; `range` of a
non-positive count is empty, hence `Int.toNat`. -/
def get_random_birthdays (g : Nat → Nat) (num_birthdays : Int) : List Nat :=
  (List.range num_birthdays.toNat).map (fun k => g k % 365)

/-- Day-of-year of a date: offset `d` from January 1 of the non-leap year 2001
is day-of-year `d + 1` (January 1 is day 1, December 31 is day 365). -/
def dayOfYear (offset : Nat) : Nat := offset + 1

/-- One step of the tally loops in the source: `birthday_counts[birthday] += 1`
on a `defaultdict(int)` (and what `Counter` does per element).  If the key is
present its count is bumped, otherwise the key is appended with count 1. -/
def incr (m : List (Nat × Nat)) (d : Nat) : List (Nat × Nat) :=
  match m with
  | [] => [(d, 1)]
  | (k, v) :: rest => if k = d then (k, v + 1) :: rest else (k, v) :: incr rest d

/-- Source `display_birthdays` (lines 52–81): builds the `defaultdict(int)`
occurrence map with `birthday_counts[birthday] += 1` over the list and returns
it (the printing of the sorted entries is I/O and is dropped). -/
def display_birthdays (birthdays_list : List Nat) : List (Nat × Nat) :=
  birthdays_list.foldl incr []

/-- The spec's name (§4.3 `count_occurrences`) for the occurrence map that
`display_birthdays` builds and returns. -/
def count_occurrences (dates : List Nat) : List (Nat × Nat) :=
  display_birthdays dates

/-- Source `find_duplicate_birthdays` (lines 34–49): tallies the list with
`Counter` and returns `True` iff some tally exceeds 1. -/
def find_duplicate_birthdays (birthdays : List Nat) : Bool :=
  (birthdays.foldl incr []).any (fun p => 1 < p.2)

/-- Source `summarize_matches` (lines 84–108): from an occurrence map, builds
`matchesSummary`, a `defaultdict(int)` counting, for each tally `count > 1`,
how many dates had that tally (printing dropped). -/
def summarize_matches (birthdays : List (Nat × Nat)) : List (Nat × Nat) :=
  birthdays.foldl (fun s p => if 1 < p.2 then incr s p.2 else s) []

/-- Lookup in the association-list model of a `defaultdict(int)`: the count
stored for `d`, defaulting to 0 when `d` is absent. -/
def getCount (m : List (Nat × Nat)) (d : Nat) : Nat :=
  match m with
  | [] => 0
  | (k, v) :: rest => if k = d then v else getCount rest d

/-- Sum of the values of an occurrence map (`sum(m.values())`). -/
def sumVals (m : List (Nat × Nat)) : Nat :=
  (m.map Prod.snd).sum

/-- The value `simulate_birthday_paradox` computes (source lines 111–146):
the returned pair `(probability, totalMatches)` together with the data of the
final detailed report — the last trial's date list fed to
`display_birthdays`, the occurrence map it returns, and the `matchesSummary`
built from it by `summarize_matches`. -/
structure SimResult where
  probability : ℚ
  totalMatches : Nat
  lastBirthdays : List Nat
  birthdayCounts : List (Nat × Nat)
  matchesSummary : List (Nat × Nat)
  deriving DecidableEq, Repr

/-- One iteration of the simulation loop (source lines 129–136): generate
`num_people` birthdays for trial `i`, and increment `totalMatches` when
`find_duplicate_birthdays` reports a duplicate.  State: `totalMatches`
together with the `birthdays` local (absent before the first iteration). -/
def simStep (G : Nat → Nat → Nat) (num_people : Int)
    (st : Nat × Option (List Nat)) (i : Nat) : Nat × Option (List Nat) :=
  let birthdays := get_random_birthdays (G i) num_people
  ((if find_duplicate_birthdays birthdays then st.1 + 1 else st.1), some birthdays)

/-- The state after `for i in range(n)` iterations of the simulation loop,
starting from `totalMatches = 0` with the `birthdays` local unassigned. -/
def simFold (G : Nat → Nat → Nat) (num_people : Int) (n : Nat) :
    Nat × Option (List Nat) :=
  (List.range n).foldl (simStep G num_people) (0, none)

/-- Source `simulate_birthday_paradox` (lines 111–146).  Runs the loop, then
reads the `birthdays` local for the final report: if the loop never ran the
local is unassigned and the Python raises `UnboundLocalError`, modelled as
`none`.  Otherwise returns the report data and
`probability = totalMatches / num_simulations * 100` (exact division standing
in for Python float division). -/
def simulate_birthday_paradox (G : Nat → Nat → Nat)
    (num_people num_simulations : Int) : Option SimResult :=
  let st := simFold G num_people num_simulations.toNat
  match st.2 with
  | none => none
  | some birthdays =>
      let birthday_counts := display_birthdays birthdays
      some { probability := (st.1 : ℚ) / (num_simulations : ℚ) * 100
           , totalMatches := st.1
           , lastBirthdays := birthdays
           , birthdayCounts := birthday_counts
           , matchesSummary := summarize_matches birthday_counts }

/-! ### Lemmas about the occurrence-map fold -/

theorem getCount_incr (m : List (Nat × Nat)) (d e : Nat) :
    getCount (incr m d) e = getCount m e + (if d = e then 1 else 0) := by
  induction m with
  | nil =>
      by_cases h : d = e <;> simp [incr, getCount, h]
  | cons p rest ih =>
      obtain ⟨k, v⟩ := p
      by_cases hk : k = d
      · subst hk
        by_cases h : k = e
        · subst h
          simp [incr, getCount]
        · simp [incr, getCount, h]
      · by_cases h : k = e
        · subst h
          have hd : ¬ d = k := fun hh => hk hh.symm
          simp [incr, getCount, hk, hd]
        · simp [incr, getCount, hk, h, ih]

theorem getCount_foldl_incr (l : List Nat) :
    ∀ (m : List (Nat × Nat)) (e : Nat),
      getCount (l.foldl incr m) e = getCount m e + l.count e := by
  induction l with
  | nil => intro m e; simp
  | cons a l ih =>
      intro m e
      rw [List.foldl_cons, ih, getCount_incr, List.count_cons]
      by_cases h : a = e
      · subst h
        simp
        omega
      · have h2 : ¬ (a == e) = true := by simpa using h
        simp [h, h2]

theorem getCount_count_occurrences (l : List Nat) (e : Nat) :
    getCount (count_occurrences l) e = l.count e := by
  have h := getCount_foldl_incr l [] e
  simpa [count_occurrences, display_birthdays, getCount] using h

theorem sumVals_incr (m : List (Nat × Nat)) (d : Nat) :
    sumVals (incr m d) = sumVals m + 1 := by
  induction m with
  | nil => simp [incr, sumVals]
  | cons p rest ih =>
      obtain ⟨k, v⟩ := p
      by_cases hk : k = d
      · simp [incr, hk, sumVals]
        omega
      · simp [incr, hk, sumVals] at ih ⊢
        omega

theorem sumVals_foldl_incr (l : List Nat) :
    ∀ m : List (Nat × Nat), sumVals (l.foldl incr m) = sumVals m + l.length := by
  induction l with
  | nil => intro m; simp
  | cons a l ih =>
      intro m
      rw [List.foldl_cons, ih, sumVals_incr, List.length_cons]
      omega

theorem key_of_mem_incr {m : List (Nat × Nat)} {d : Nat} {p : Nat × Nat}
    (h : p ∈ incr m d) : p.1 = d ∨ p.1 ∈ m.map Prod.fst := by
  induction m with
  | nil =>
      simp [incr] at h
      subst h; left; rfl
  | cons q rest ih =>
      obtain ⟨k, v⟩ := q
      by_cases hk : k = d
      · subst hk
        simp [incr] at h
        rcases h with h | h
        · left; simp [h]
        · right
          simp only [List.map_cons]
          exact List.mem_cons_of_mem _ (List.mem_map_of_mem Prod.fst h)
      · simp [incr, hk] at h
        rcases h with h | h
        · right
          simp only [List.map_cons]
          subst h
          exact List.mem_cons_self _ _
        · rcases ih h with h2 | h2
          · left; exact h2
          · right
            simp only [List.map_cons]
            exact List.mem_cons_of_mem _ h2

theorem pos_of_mem_incr {m : List (Nat × Nat)} {d : Nat} {p : Nat × Nat}
    (hm : ∀ q ∈ m, 0 < q.2) (h : p ∈ incr m d) : 0 < p.2 := by
  induction m with
  | nil =>
      simp [incr] at h
      subst h; simp
  | cons q rest ih =>
      obtain ⟨k, v⟩ := q
      by_cases hk : k = d
      · subst hk
        simp [incr] at h
        rcases h with h | h
        · subst h; simp
        · exact hm _ (List.mem_cons_of_mem _ h)
      · simp [incr, hk] at h
        rcases h with h | h
        · subst h
          exact hm (k, v) (List.mem_cons_self _ _)
        · exact ih (fun q hq => hm q (List.mem_cons_of_mem _ hq)) h

theorem mem_foldl_incr (l : List Nat) :
    ∀ (m : List (Nat × Nat)) (p : Nat × Nat), p ∈ l.foldl incr m →
      (p.1 ∈ m.map Prod.fst ∨ p.1 ∈ l) ∧ ((∀ q ∈ m, 0 < q.2) → 0 < p.2) := by
  induction l with
  | nil =>
      intro m p hp
      simp at hp
      constructor
      · left; exact List.mem_map_of_mem Prod.fst hp
      · intro hm; exact hm p hp
  | cons a l ih =>
      intro m p hp
      rw [List.foldl_cons] at hp
      obtain ⟨hkey, hpos⟩ := ih (incr m a) p hp
      constructor
      · rcases hkey with hk | hk
        · rcases List.mem_map.mp hk with ⟨q, hq, hq1⟩
          rcases key_of_mem_incr hq with h | h
          · right
            rw [← hq1, h]
            exact List.mem_cons_self _ _
          · left
            rw [← hq1]
            exact h
        · right; exact List.mem_cons_of_mem _ hk
      · intro hm
        exact hpos (fun q hq => pos_of_mem_incr hm hq)

theorem keys_incr (m : List (Nat × Nat)) (d : Nat) :
    (incr m d).map Prod.fst =
      if d ∈ m.map Prod.fst then m.map Prod.fst else m.map Prod.fst ++ [d] := by
  induction m with
  | nil => simp [incr]
  | cons q rest ih =>
      obtain ⟨k, v⟩ := q
      by_cases hk : k = d
      · subst hk
        simp [incr]
      · by_cases hd : d ∈ rest.map Prod.fst
        · simp [incr, hk, hd, Ne.symm hk] at ih ⊢
          exact ih
        · simp [incr, hk, hd, Ne.symm hk] at ih ⊢
          exact ih

theorem keysNodup_incr {m : List (Nat × Nat)} {d : Nat}
    (h : (m.map Prod.fst).Nodup) : ((incr m d).map Prod.fst).Nodup := by
  rw [keys_incr]
  by_cases hd : d ∈ m.map Prod.fst
  · simpa [hd]
  · simp [hd]
    exact List.Nodup.append h (List.nodup_singleton d)
      (by simpa [List.disjoint_singleton] using hd)

theorem keysNodup_foldl_incr (l : List Nat) :
    ∀ m : List (Nat × Nat), (m.map Prod.fst).Nodup →
      ((l.foldl incr m).map Prod.fst).Nodup := by
  induction l with
  | nil => intro m hm; simpa using hm
  | cons a l ih =>
      intro m hm
      rw [List.foldl_cons]
      exact ih _ (keysNodup_incr hm)

theorem getCount_of_mem {m : List (Nat × Nat)} {p : Nat × Nat}
    (hnd : (m.map Prod.fst).Nodup) (hp : p ∈ m) : getCount m p.1 = p.2 := by
  induction m with
  | nil => simp at hp
  | cons q rest ih =>
      obtain ⟨k, v⟩ := q
      rw [List.map_cons, List.nodup_cons] at hnd
      rcases List.mem_cons.mp hp with h | h
      · subst h; simp [getCount]
      · have hmem : p.1 ∈ rest.map Prod.fst := List.mem_map_of_mem Prod.fst h
        have hk : ¬ k = p.1 := fun hkp => hnd.1 (by rw [hkp]; exact hmem)
        simp only [getCount, if_neg hk]
        exact ih hnd.2 h

theorem mem_count_occurrences_count {l : List Nat} {p : Nat × Nat}
    (hp : p ∈ count_occurrences l) : p.2 = l.count p.1 := by
  have hnd : ((count_occurrences l).map Prod.fst).Nodup := by
    have := keysNodup_foldl_incr l [] (by simp)
    simpa [count_occurrences, display_birthdays] using this
  have h1 := getCount_of_mem hnd hp
  have h2 := getCount_count_occurrences l p.1
  omega

theorem exists_mem_of_getCount_pos {m : List (Nat × Nat)} {e : Nat}
    (h : 0 < getCount m e) : ∃ p ∈ m, p.1 = e ∧ p.2 = getCount m e := by
  induction m with
  | nil => simp [getCount] at h
  | cons q rest ih =>
      obtain ⟨k, v⟩ := q
      by_cases hk : k = e
      · exact ⟨(k, v), List.mem_cons_self _ _, hk, by simp [getCount, hk]⟩
      · simp [getCount, hk] at h
        obtain ⟨p, hp, h1, h2⟩ := ih h
        exact ⟨p, List.mem_cons_of_mem _ hp, h1, by simp [getCount, hk, h2]⟩

/-! ### Duplicate detection -/

theorem find_duplicate_eq_any (l : List Nat) :
    find_duplicate_birthdays l = (count_occurrences l).any (fun p => 1 < p.2) := rfl

theorem find_dup_iff_exists (l : List Nat) :
    find_duplicate_birthdays l = true ↔ ∃ p ∈ count_occurrences l, 1 < p.2 := by
  rw [find_duplicate_eq_any, List.any_eq_true]
  simp

theorem find_dup_iff_not_nodup (l : List Nat) :
    find_duplicate_birthdays l = true ↔ ¬ l.Nodup := by
  rw [find_dup_iff_exists]
  constructor
  · rintro ⟨p, hp, h2⟩
    have hc := mem_count_occurrences_count hp
    rw [List.nodup_iff_count_le_one]
    intro hn
    have := hn p.1
    omega
  · intro h
    rw [List.nodup_iff_count_le_one] at h
    push_neg at h
    obtain ⟨a, ha⟩ := h
    have hpos : 0 < getCount (count_occurrences l) a := by
      rw [getCount_count_occurrences]; omega
    obtain ⟨p, hp, h1, h2⟩ := exists_mem_of_getCount_pos hpos
    rw [getCount_count_occurrences] at h2
    exact ⟨p, hp, by omega⟩

/-! ### The generator -/

theorem length_get_random_birthdays (g : Nat → Nat) (count : Int) :
    (get_random_birthdays g count).length = count.toNat := by
  simp [get_random_birthdays]

theorem mem_get_random_birthdays_lt {g : Nat → Nat} {count : Int} {d : Nat}
    (h : d ∈ get_random_birthdays g count) : d < 365 := by
  simp [get_random_birthdays] at h
  obtain ⟨k, _, hk⟩ := h
  omega

theorem length_le_of_nodup_lt {l : List Nat} {n : Nat}
    (hnd : l.Nodup) (hlt : ∀ x ∈ l, x < n) : l.length ≤ n := by
  have h1 : l.toFinset.card = l.length := List.toFinset_card_of_nodup hnd
  have h2 : l.toFinset ⊆ Finset.range n := by
    intro x hx
    rw [Finset.mem_range]
    exact hlt x (List.mem_toFinset.mp hx)
  have h3 := Finset.card_le_card h2
  rw [Finset.card_range] at h3
  omega

theorem find_dup_of_ge_366 (g : Nat → Nat) (count : Int) (h : 366 ≤ count) :
    find_duplicate_birthdays (get_random_birthdays g count) = true := by
  rw [find_dup_iff_not_nodup]
  intro hnd
  have hlt : ∀ x ∈ get_random_birthdays g count, x < 365 :=
    fun x hx => mem_get_random_birthdays_lt hx
  have hlen := length_le_of_nodup_lt hnd hlt
  rw [length_get_random_birthdays] at hlen
  omega

/-! ### Match-summary keys -/

theorem summarize_fold_keys (l : List (Nat × Nat)) :
    ∀ s : List (Nat × Nat), (∀ q ∈ s, 2 ≤ q.1) →
      ∀ p ∈ l.foldl (fun s p => if 1 < p.2 then incr s p.2 else s) s, 2 ≤ p.1 := by
  induction l with
  | nil => intro s hs p hp; exact hs p (by simpa using hp)
  | cons a l ih =>
      intro s hs p hp
      simp only [List.foldl_cons] at hp
      refine ih _ ?_ p hp
      intro q hq
      by_cases ha : 1 < a.2
      · rw [if_pos ha] at hq
        rcases key_of_mem_incr hq with h | h
        · omega
        · rcases List.mem_map.mp h with ⟨r, hr, hr1⟩
          have := hs r hr
          omega
      · rw [if_neg ha] at hq
        exact hs q hq

/-! ### Claim theorems -/

/-- C2: `find_duplicate_birthdays(dates)` returns true iff at least two
elements of the sequence are equal (two distinct positions carrying the same
date), iff the occurrence map built by `count_occurrences` contains some
value ≥ 2; in particular it returns false on the empty sequence and on every
single-element sequence. -/
theorem C2_find_duplicate_characterisation (l : List Nat) :
    (find_duplicate_birthdays l = true ↔
        ∃ i j : Fin l.length, i ≠ j ∧ l.get i = l.get j)
    ∧ (find_duplicate_birthdays l = true ↔
        ∃ p ∈ count_occurrences l, 2 ≤ p.2)
    ∧ find_duplicate_birthdays [] = false
    ∧ ∀ d : Nat, find_duplicate_birthdays [d] = false := by
  refine ⟨?_, ?_, rfl, fun d => rfl⟩
  · rw [find_dup_iff_not_nodup, List.nodup_iff_injective_get]
    constructor
    · intro h
      rcases Function.not_injective_iff.mp h with ⟨i, j, hij, hne⟩
      exact ⟨i, j, hne, hij⟩
    · rintro ⟨i, j, hne, hij⟩
      exact Function.not_injective_iff.mpr ⟨i, j, hij, hne⟩
  · rw [find_dup_iff_exists]
    constructor
    · rintro ⟨p, hp, h⟩; exact ⟨p, hp, h⟩
    · rintro ⟨p, hp, h⟩; exact ⟨p, hp, h⟩

/-- C3: for every count ≥ 366, whatever the entropy stream, the generated
trial always contains a duplicate — only 365 distinct day values exist, so
`find_duplicate_birthdays` returns true with certainty (pigeonhole). -/
theorem C3_pigeonhole_certain_duplicate (g : Nat → Nat) (count : Int)
    (h : 366 ≤ count) :
    find_duplicate_birthdays (get_random_birthdays g count) = true :=
  find_dup_of_ge_366 g count h

/-- Witness for C3 at `count = 366` with entropy stream `fun k => k`. -/
theorem C3_pigeonhole_certain_duplicate_witness :
    (366 : Int) ≤ 366 ∧
      find_duplicate_birthdays (get_random_birthdays (fun k => k) 366) = true :=
  ⟨by norm_num, C3_pigeonhole_certain_duplicate (fun k => k) 366 (by norm_num)⟩

/-- C5 counterexample: the claim says `get_random_birthdays(count)` fails
with `InvalidArgument` whenever `count` is not positive, but the source has
no validation at all: at `count = 0` the generating `range` is empty and the
call returns the empty list normally — no error of any kind is raised. -/
theorem C5_counterexample_no_error_at_zero :
    get_random_birthdays (fun k => k) 0 = [] := rfl

/-- C5 (amended): `get_random_birthdays(count)` raises no error for any
integer `count`; when `count` is not positive the generating range is empty
and the function simply returns the empty list. -/
theorem C5_amended_generator_no_failure (g : Nat → Nat) (count : Int)
    (h : ¬ 0 < count) :
    get_random_birthdays g count = []
    ∧ (get_random_birthdays g count).length = 0 := by
  have hc : count.toNat = 0 := by omega
  unfold get_random_birthdays
  rw [hc]
  exact ⟨rfl, rfl⟩

/-- Witness for the amended C5 at `count = 0`. -/
theorem C5_amended_generator_no_failure_witness :
    get_random_birthdays (fun k => k) 0 = []
    ∧ (get_random_birthdays (fun k => k) 0).length = 0 :=
  C5_amended_generator_no_failure (fun k => k) 0 (by norm_num)

/-- C6: for every trial, the occurrence map built by `display_birthdays`
(the spec's `count_occurrences`) has counts summing to the length of the
trial, and every key of the map occurs in the trial with a positive count. -/
theorem C6_occurrence_map_invariants (l : List Nat) :
    sumVals (display_birthdays l) = l.length
    ∧ ∀ p ∈ display_birthdays l, p.1 ∈ l ∧ 0 < p.2 := by
  constructor
  · have h := sumVals_foldl_incr l []
    simpa [display_birthdays, sumVals] using h
  · intro p hp
    obtain ⟨hkey, hpos⟩ := mem_foldl_incr l [] p hp
    refine ⟨?_, hpos (by simp)⟩
    rcases hkey with hk | hk
    · simp at hk
    · exact hk

/-- Witness for C6 on the trial `[3, 3, 5]`, whose occurrence map is
`[(3, 2), (5, 1)]`. -/
theorem C6_occurrence_map_invariants_witness :
    sumVals (display_birthdays [3, 3, 5]) = 3
    ∧ ((3, 2) : Nat × Nat).1 ∈ ([3, 3, 5] : List Nat)
    ∧ 0 < ((3, 2) : Nat × Nat).2 :=
  ⟨(C6_occurrence_map_invariants [3, 3, 5]).1,
   (C6_occurrence_map_invariants [3, 3, 5]).2 (3, 2) (by decide)⟩

/-- C7: every key of the match summary built by `summarize_matches` is ≥ 2;
in particular the key 1 never appears, since counts of exactly one are
skipped by the `count > 1` guard. -/
theorem C7_match_summary_keys_ge_two (m : List (Nat × Nat)) :
    ∀ p ∈ summarize_matches m, 2 ≤ p.1 ∧ p.1 ≠ 1 := by
  intro p hp
  have h := summarize_fold_keys m [] (by simp) p hp
  exact ⟨h, by omega⟩

/-- Witness for C7 on the occurrence map `[(3, 2), (5, 1)]`, whose match
summary is `[(2, 1)]`. -/
theorem C7_match_summary_keys_ge_two_witness :
    2 ≤ ((2, 1) : Nat × Nat).1 ∧ ((2, 1) : Nat × Nat).1 ≠ 1 :=
  C7_match_summary_keys_ge_two [(3, 2), (5, 1)] (2, 1) (by decide)

/-- C8: for every positive count, `get_random_birthdays` returns exactly
`count` dates, each one of the 365 days of the fixed non-leap reference year
(offset < 365, day-of-year between 1 and 365); day 366 is never produced. -/
theorem C8_generator_count_and_range (g : Nat → Nat) (count : Int)
    (h : 0 < count) :
    ((get_random_birthdays g count).length : Int) = count
    ∧ ∀ d ∈ get_random_birthdays g count,
        d < 365 ∧ 1 ≤ dayOfYear d ∧ dayOfYear d ≤ 365 ∧ dayOfYear d ≠ 366 := by
  constructor
  · rw [length_get_random_birthdays]
    omega
  · intro d hd
    have hlt := mem_get_random_birthdays_lt hd
    unfold dayOfYear
    omega

/-- Witness for C8 at `count = 2` with entropy stream `fun k => k`, whose
output is `[0, 1]`; the range facts are checked at the member `0`. -/
theorem C8_generator_count_and_range_witness :
    ((get_random_birthdays (fun k => k) 2).length : Int) = 2
    ∧ (0 < 365 ∧ 1 ≤ dayOfYear 0 ∧ dayOfYear 0 ≤ 365 ∧ dayOfYear 0 ≠ 366) :=
  ⟨(C8_generator_count_and_range (fun k => k) 2 (by norm_num)).1,
   (C8_generator_count_and_range (fun k => k) 2 (by norm_num)).2 0 (by decide)⟩

/-- C10: for every integer count ≤ 0, `get_random_birthdays` raises nothing
and returns the empty list — the generating range is empty, so the call is
total on all integer inputs. -/
theorem C10_generator_total_on_nonpositive (g : Nat → Nat) (count : Int)
    (h : count ≤ 0) : get_random_birthdays g count = [] := by
  have hc : count.toNat = 0 := by omega
  unfold get_random_birthdays
  rw [hc]
  rfl

/-- Witness for C10 at `count = -1`. -/
theorem C10_generator_total_on_nonpositive_witness :
    get_random_birthdays (fun k => k) (-1) = [] :=
  C10_generator_total_on_nonpositive (fun k => k) (-1) (by norm_num)

/-! ### The simulation driver -/

theorem simStep_fst (G : Nat → Nat → Nat) (p : Int) (st : Nat × Option (List Nat))
    (i : Nat) :
    (simStep G p st i).1 =
      if find_duplicate_birthdays (get_random_birthdays (G i) p)
      then st.1 + 1 else st.1 := rfl

theorem simStep_snd (G : Nat → Nat → Nat) (p : Int) (st : Nat × Option (List Nat))
    (i : Nat) :
    (simStep G p st i).2 = some (get_random_birthdays (G i) p) := rfl

theorem simFold_succ (G : Nat → Nat → Nat) (p : Int) (n : Nat) :
    simFold G p (n + 1) = simStep G p (simFold G p n) n := by
  unfold simFold
  rw [List.range_succ, List.foldl_append, List.foldl_cons, List.foldl_nil]

theorem simFold_fst_le (G : Nat → Nat → Nat) (p : Int) (n : Nat) :
    (simFold G p n).1 ≤ n := by
  induction n with
  | zero => exact Nat.le_refl 0
  | succ n ih =>
      rw [simFold_succ, simStep_fst]
      split <;> omega

theorem simFold_snd_succ (G : Nat → Nat → Nat) (p : Int) (n : Nat) :
    (simFold G p (n + 1)).2 = some (get_random_birthdays (G n) p) := by
  rw [simFold_succ, simStep_snd]

theorem simulate_eq_some (G : Nat → Nat → Nat) (p s : Int) (hs : 0 < s) :
    simulate_birthday_paradox G p s =
      some { probability := ((simFold G p s.toNat).1 : ℚ) / (s : ℚ) * 100
           , totalMatches := (simFold G p s.toNat).1
           , lastBirthdays := get_random_birthdays (G (s.toNat - 1)) p
           , birthdayCounts :=
               display_birthdays (get_random_birthdays (G (s.toNat - 1)) p)
           , matchesSummary :=
               summarize_matches
                 (display_birthdays (get_random_birthdays (G (s.toNat - 1)) p)) } := by
  obtain ⟨n, hn⟩ : ∃ n, s.toNat = n + 1 :=
    Nat.exists_eq_succ_of_ne_zero (by omega)
  simp only [simulate_birthday_paradox, hn, Nat.add_sub_cancel, simFold_snd_succ]

/-- C1: for positive `group_size` and `num_simulations`, the simulation
returns a pair whose `totalMatches` is a natural number at most
`num_simulations` and whose probability equals exactly
`totalMatches / num_simulations * 100`, a value in `[0, 100]` (division is
exact rational arithmetic standing in for Python float division). -/
theorem C1_simulation_result_bounds (G : Nat → Nat → Nat) (g s : Int)
    (_hg : 0 < g) (hs : 0 < s) :
    ∃ r : SimResult, simulate_birthday_paradox G g s = some r
      ∧ (r.totalMatches : Int) ≤ s
      ∧ 0 ≤ r.probability ∧ r.probability ≤ 100
      ∧ r.probability = (r.totalMatches : ℚ) / (s : ℚ) * 100 := by
  refine ⟨_, simulate_eq_some G g s hs, ?_, ?_, ?_, rfl⟩
  · have h1 := simFold_fst_le G g s.toNat
    simp only []
    omega
  · have hsq : (0 : ℚ) < (s : ℚ) := by exact_mod_cast hs
    have ht0 : (0 : ℚ) ≤ ((simFold G g s.toNat).1 : ℚ) := Nat.cast_nonneg _
    exact mul_nonneg (div_nonneg ht0 hsq.le) (by norm_num)
  · have hsq : (0 : ℚ) < (s : ℚ) := by exact_mod_cast hs
    have h1 := simFold_fst_le G g s.toNat
    have h2 : ((simFold G g s.toNat).1 : Int) ≤ s := by omega
    have htq : ((simFold G g s.toNat).1 : ℚ) ≤ (s : ℚ) := by exact_mod_cast h2
    have hd : ((simFold G g s.toNat).1 : ℚ) / (s : ℚ) ≤ 1 :=
      (div_le_one hsq).mpr htq
    have := mul_le_mul_of_nonneg_right hd (by norm_num : (0 : ℚ) ≤ 100)
    simpa using this

/-- Witness for C1 at `group_size = 2`, `num_simulations = 3`. -/
theorem C1_simulation_result_bounds_witness :
    ∃ r : SimResult, simulate_birthday_paradox (fun _ k => k) 2 3 = some r
      ∧ (r.totalMatches : Int) ≤ 3
      ∧ 0 ≤ r.probability ∧ r.probability ≤ 100
      ∧ r.probability = (r.totalMatches : ℚ) / ((3 : Int) : ℚ) * 100 :=
  C1_simulation_result_bounds (fun _ k => k) 2 3 (by norm_num) (by norm_num)

/-- C4 counterexample: the claim says the simulation fails with
`InvalidArgument` whenever `group_size ≤ 0` or `num_simulations ≤ 0`, but the
source performs no validation: at `group_size = 0`, `num_simulations = 5` the
call completes normally and returns a result. -/
theorem C4_counterexample_no_error :
    (simulate_birthday_paradox (fun _ k => k) 0 5).isSome = true := rfl

/-- C4 (amended): `simulate_birthday_paradox` performs no argument
validation.  With `group_size ≤ 0` and `num_simulations ≥ 1` it completes
normally — every trial generates the empty list, no duplicate is ever found,
and it returns probability 0 with `totalMatches = 0`.  With
`num_simulations ≤ 0` it does fail, but by reading the never-assigned
`birthdays` local after the empty loop (Python `UnboundLocalError`, modelled
as `none`), not with `InvalidArgument`. -/
theorem C4_amended_no_validation (G : Nat → Nat → Nat) (g s : Int) :
    (g ≤ 0 → 1 ≤ s →
      simulate_birthday_paradox G g s =
        some { probability := 0, totalMatches := 0, lastBirthdays := []
             , birthdayCounts := [], matchesSummary := [] })
    ∧ (s ≤ 0 → simulate_birthday_paradox G g s = none) := by
  constructor
  · intro hg hs
    have hgen : ∀ i, get_random_birthdays (G i) g = [] := by
      intro i
      have hc : g.toNat = 0 := by omega
      unfold get_random_birthdays
      rw [hc]
      rfl
    have hfst : ∀ n, (simFold G g n).1 = 0 := by
      intro n
      induction n with
      | zero => rfl
      | succ n ih =>
          rw [simFold_succ, simStep_fst, hgen, ih]
          rfl
    rw [simulate_eq_some G g s (by omega), hgen, hfst]
    simp [display_birthdays, summarize_matches]
  · intro hs
    have hc : s.toNat = 0 := by omega
    simp only [simulate_birthday_paradox, hc]
    rfl

/-- Witness for the amended C4: `group_size = 0, num_simulations = 5`
succeeds with probability 0, while `group_size = 3, num_simulations = 0`
fails with the unbound-local read. -/
theorem C4_amended_no_validation_witness :
    simulate_birthday_paradox (fun _ k => k) 0 5 =
        some { probability := 0, totalMatches := 0, lastBirthdays := []
             , birthdayCounts := [], matchesSummary := [] }
    ∧ simulate_birthday_paradox (fun _ k => k) 3 0 = none :=
  ⟨(C4_amended_no_validation (fun _ k => k) 0 5).1 (by norm_num) (by norm_num),
   (C4_amended_no_validation (fun _ k => k) 3 0).2 (by norm_num)⟩

/-- C9: after the loop completes (at least one simulation), the date
sequence handed to the aggregation step is exactly the one generated in the
last trial — trial index `num_simulations - 1` — and the reported occurrence
map and match summary are computed from it alone. -/
theorem C9_last_trial_reported (G : Nat → Nat → Nat) (g s : Int) (hs : 1 ≤ s) :
    ∃ r : SimResult, simulate_birthday_paradox G g s = some r
      ∧ r.lastBirthdays = get_random_birthdays (G (s.toNat - 1)) g
      ∧ r.birthdayCounts = display_birthdays r.lastBirthdays
      ∧ r.matchesSummary = summarize_matches r.birthdayCounts :=
  ⟨_, simulate_eq_some G g s (by omega), rfl, rfl, rfl⟩

/-- Witness for C9 at `group_size = 2`, `num_simulations = 2` with entropy
streams `G i k = i + k`: the reported list is the one of trial index 1. -/
theorem C9_last_trial_reported_witness :
    ∃ r : SimResult, simulate_birthday_paradox (fun i k => i + k) 2 2 = some r
      ∧ r.lastBirthdays = get_random_birthdays (fun k => 1 + k) 2
      ∧ r.birthdayCounts = display_birthdays r.lastBirthdays
      ∧ r.matchesSummary = summarize_matches r.birthdayCounts :=
  C9_last_trial_reported (fun i k => i + k) 2 2 (by norm_num)

end BirthdayParadox
